import Mathlib

/-!
# Verification of the DNS tunnel transport (src/dnstunnel.py, src/server.py)

A shallow embedding of the transport layer of the repository: the channel
alphabet codec (RFC 4648 base32, lowercased, padding stripped), the wire
codec for query/response datagrams, the server state (partial uploads,
queued downloads, idle expiry) and the client receive loop.  Bytes are
modelled as `Nat` below 256 in `List Nat`; text as `List Char`; Python
dicts as association lists; Python exceptions as `Option`/`Except`.
-/

set_option maxRecDepth 200000

namespace DnsTunnel

/-! ## Association-list maps (Python dicts)

`ainsert` overwrites in place on an existing key and appends otherwise,
mirroring Python dict insertion order; `aerase` models `del d[k]` (and is a
no-op on a missing key, used only where the source guards with `in`).
-/

def alookup {κ α : Type} [DecidableEq κ] (m : List (κ × α)) (k : κ) : Option α :=
  match m with
  | [] => none
  | (k', v) :: rest => if k' = k then some v else alookup rest k

def ainsert {κ α : Type} [DecidableEq κ] (m : List (κ × α)) (k : κ) (v : α) :
    List (κ × α) :=
  match m with
  | [] => [(k, v)]
  | (k', v') :: rest => if k' = k then (k, v) :: rest else (k', v') :: ainsert rest k v

def aerase {κ α : Type} [DecidableEq κ] (m : List (κ × α)) (k : κ) : List (κ × α) :=
  match m with
  | [] => []
  | (k', v') :: rest => if k' = k then aerase rest k else (k', v') :: aerase rest k

/-! ## Python `int()` on a string

`int(s)` strips ASCII whitespace, accepts one optional sign, then a nonempty
digit string in which single underscores may separate digits.  Any other
input raises `ValueError`, modelled as `none`.
-/

def isPySpace (c : Char) : Bool :=
  c == ' ' || c == '\t' || c == '\n' || c == '\r' || c == '\x0b' || c == '\x0c'

/-- Digits with single internal underscores, accumulating the value. -/
def pyDigitsVal : List Char → Nat → Option Nat
  | [], acc => some acc
  | c :: rest, acc =>
    if c.isDigit then pyDigitsVal rest (acc * 10 + (c.toNat - 48))
    else if c = '_' then
      match rest with
      | d :: _ => if d.isDigit then pyDigitsVal rest acc else none
      | [] => none
    else none

/-- Python `int(s)` for an ASCII string, `none` on `ValueError`. -/
def pyInt (s : List Char) : Option Int :=
  match (s.dropWhile isPySpace).reverse.dropWhile isPySpace |>.reverse with
  | [] => none
  | c :: rest =>
    if c = '-' then
      match rest with
      | [] => none
      | d :: _ =>
        if d.isDigit then (pyDigitsVal rest 0).map (fun n => -(n : Int)) else none
    else if c = '+' then
      match rest with
      | [] => none
      | d :: _ =>
        if d.isDigit then (pyDigitsVal rest 0).map (fun n => (n : Int)) else none
    else if c.isDigit then (pyDigitsVal (c :: rest) 0).map (fun n => (n : Int))
    else none

/-! ## Python `str.split` -/

/-- `s.split(sep)` with no maxsplit: always returns at least one piece. -/
def pySplitAll {α : Type} [DecidableEq α] (sep : α) : List α → List (List α)
  | [] => [[]]
  | c :: rest =>
    if c = sep then [] :: pySplitAll sep rest
    else
      match pySplitAll sep rest with
      | s :: ss => (c :: s) :: ss
      | [] => [[c]]

/-- `s.split(sep, maxsplit)`: after `maxsplit` separators the remainder is one piece. -/
def pySplitN {α : Type} [DecidableEq α] (sep : α) (maxsplit : Nat) :
    List α → List (List α)
  | [] => [[]]
  | c :: rest =>
    match maxsplit with
    | 0 => [c :: rest]
    | m + 1 =>
      if c = sep then [] :: pySplitN sep m rest
      else
        match pySplitN sep (m + 1) rest with
        | s :: ss => (c :: s) :: ss
        | [] => [[c]]

/-! ## Channel alphabet codec

`base64.b32encode(data).decode('ascii').lower().rstrip('=')` on encode, and
`data += '=' * ((8 - len(data) % 8) % 8); base64.b32decode(data.upper())` on
decode — the idiom shared by `DNSTunnelClient._encode_data`,
`DNSTunnelServer.queue_response`, `DNSTunnelClient._receive_chunk` and
`DNSTunnelServer._assemble_session_data`.
-/

def b32alphaU : List Char :=
  ['A','B','C','D','E','F','G','H','I','J','K','L','M',
   'N','O','P','Q','R','S','T','U','V','W','X','Y','Z',
   '2','3','4','5','6','7']

def b32charOfVal (v : Nat) : Char := b32alphaU.getD v 'A'

def b32valAux (c : Char) : List Char → Nat → Option Nat
  | [], _ => none
  | d :: rest, i => if d = c then some i else b32valAux c rest (i + 1)

/-- The reverse alphabet map of `base64.b32decode` (uppercase only). -/
def b32valOfChar (c : Char) : Option Nat := b32valAux c b32alphaU 0

/-- The eight 5-bit symbols of one 40-bit group `b0‖b1‖b2‖b3‖b4`. -/
def b32groupVals (b0 b1 b2 b3 b4 : Nat) : List Nat :=
  [b0 / 8,
   b0 % 8 * 4 + b1 / 64,
   b1 / 2 % 32,
   b1 % 2 * 16 + b2 / 16,
   b2 % 16 * 2 + b3 / 128,
   b3 / 4 % 32,
   b3 % 4 * 8 + b4 / 32,
   b4 % 32]

/-- Base32 symbol stream of a byte string; a final partial group is padded
with zero bytes and truncated to `ceil(8k/5)` symbols, exactly the symbols
`b32encode` emits before its `=` padding (which the source strips). -/
def b32valsOfBytes : List Nat → List Nat
  | b0 :: b1 :: b2 :: b3 :: b4 :: rest =>
    b32groupVals b0 b1 b2 b3 b4 ++ b32valsOfBytes rest
  | [b0] => (b32groupVals b0 0 0 0 0).take 2
  | [b0, b1] => (b32groupVals b0 b1 0 0 0).take 4
  | [b0, b1, b2] => (b32groupVals b0 b1 b2 0 0).take 5
  | [b0, b1, b2, b3] => (b32groupVals b0 b1 b2 b3 0).take 7
  | [] => []

/-- `base64.b32encode(data).decode('ascii').lower().rstrip('=')`. -/
def bytes_to_text (data : List Nat) : List Char :=
  (b32valsOfBytes data).map (fun v => (b32charOfVal v).toLower)

/-- Rebuild bytes from 5-bit symbols; a trailing group of 2/4/5/7 symbols
(legal `=`-padding amounts 6/4/3/1) yields 1/2/3/4 bytes, dropping the
zero filler bits; lengths `1`, `3`, `6` mod 8 are `binascii.Error`. -/
def b32bytesOfVals : List Nat → Option (List Nat)
  | v0 :: v1 :: v2 :: v3 :: v4 :: v5 :: v6 :: v7 :: rest =>
    match b32bytesOfVals rest with
    | none => none
    | some bs =>
      some ([v0 * 8 + v1 / 4,
             v1 % 4 * 64 + v2 * 2 + v3 / 16,
             v3 % 16 * 16 + v4 / 2,
             v4 % 2 * 128 + v5 * 4 + v6 / 8,
             v6 % 8 * 32 + v7] ++ bs)
  | [] => some []
  | [v0, v1] => some [v0 * 8 + v1 / 4]
  | [v0, v1, v2, v3] =>
    some [v0 * 8 + v1 / 4, v1 % 4 * 64 + v2 * 2 + v3 / 16]
  | [v0, v1, v2, v3, v4] =>
    some [v0 * 8 + v1 / 4, v1 % 4 * 64 + v2 * 2 + v3 / 16, v3 % 16 * 16 + v4 / 2]
  | [v0, v1, v2, v3, v4, v5, v6] =>
    some [v0 * 8 + v1 / 4, v1 % 4 * 64 + v2 * 2 + v3 / 16, v3 % 16 * 16 + v4 / 2,
          v4 % 2 * 128 + v5 * 4 + v6 / 8]
  | _ => none

def b32valsOfChars : List Char → Option (List Nat)
  | [] => some []
  | c :: rest =>
    match b32valOfChar c, b32valsOfChars rest with
    | some v, some vs => some (v :: vs)
    | _, _ => none

/-- Strip trailing `=` characters (`bytes.rstrip(b'=')`). -/
def stripEq (s : List Char) : List Char :=
  ((s.reverse.dropWhile (fun c => c == '=')).reverse)

/-- `base64.b32decode(s)`: length must be a multiple of 8, trailing padding
must be one of the five legal amounts, every remaining character must be in
the uppercase alphabet; any violation raises, modelled as `none`. -/
def b32decodePy (s : List Char) : Option (List Nat) :=
  if s.length % 8 ≠ 0 then none
  else
    let stripped := stripEq s
    let padchars := s.length - stripped.length
    if padchars = 0 ∨ padchars = 1 ∨ padchars = 3 ∨ padchars = 4 ∨ padchars = 6 then
      match b32valsOfChars stripped with
      | none => none
      | some vs => b32bytesOfVals vs
    else none

/-- `padding = (8 - len(data) % 8) % 8; data += '=' * padding;
base64.b32decode(data.upper())`. -/
def text_to_bytes (s : List Char) : Option (List Nat) :=
  b32decodePy ((s ++ List.replicate ((8 - s.length % 8) % 8) '=').map Char.toUpper)

/-! ### Round-trip of the channel alphabet codec -/

theorem b32char_round (v : Nat) (hv : v < 32) :
    (b32charOfVal v).toLower.toUpper = b32charOfVal v ∧
    b32valOfChar (b32charOfVal v) = some v ∧ b32charOfVal v ≠ '=' := by
  interval_cases v <;> exact ⟨by decide, by decide, by decide⟩

theorem dropWhile_replicate_append {p : Char → Bool} {a : Char} (hp : p a = true)
    (k : Nat) (l : List Char) :
    (List.replicate k a ++ l).dropWhile p = l.dropWhile p := by
  induction k with
  | zero => simp
  | succ n ih => simp [List.replicate_succ, List.dropWhile, hp, ih]

theorem stripEq_append_replicate (ys : List Char) (k : Nat) (h : '=' ∉ ys) :
    stripEq (ys ++ List.replicate k '=') = ys := by
  unfold stripEq
  rw [List.reverse_append, List.reverse_replicate,
    dropWhile_replicate_append (by decide) k ys.reverse]
  cases hys : ys.reverse with
  | nil => simpa using congrArg List.reverse hys.symm
  | cons c t =>
    have hc : c ∈ ys := by
      have : c ∈ ys.reverse := by rw [hys]; exact List.mem_cons_self c t
      simpa using this
    have hne : (c == '=') = false := by
      simp only [beq_eq_false_iff_ne]
      intro hcEq; exact h (hcEq ▸ hc)
    rw [List.dropWhile_cons_of_neg (by simp [hne]), ← hys, List.reverse_reverse]

theorem b32valsOfBytes_length_mod (bs : List Nat) :
    (b32valsOfBytes bs).length % 8 = 0 ∨ (b32valsOfBytes bs).length % 8 = 2 ∨
    (b32valsOfBytes bs).length % 8 = 4 ∨ (b32valsOfBytes bs).length % 8 = 5 ∨
    (b32valsOfBytes bs).length % 8 = 7 := by
  induction bs using b32valsOfBytes.induct with
  | case1 b0 b1 b2 b3 b4 rest ih =>
    simp only [b32valsOfBytes, List.length_append]
    have hg : (b32groupVals b0 b1 b2 b3 b4).length = 8 := by simp [b32groupVals]
    omega
  | case2 b0 => simp [b32valsOfBytes, b32groupVals]
  | case3 b0 b1 => simp [b32valsOfBytes, b32groupVals]
  | case4 b0 b1 b2 => simp [b32valsOfBytes, b32groupVals]
  | case5 b0 b1 b2 b3 => simp [b32valsOfBytes, b32groupVals]
  | case6 => simp [b32valsOfBytes]

theorem b32valsOfBytes_lt32 (bs : List Nat) (h : ∀ b ∈ bs, b < 256) :
    ∀ v ∈ b32valsOfBytes bs, v < 32 := by
  induction bs using b32valsOfBytes.induct with
  | case1 b0 b1 b2 b3 b4 rest ih =>
    have h0 := h b0 (by simp); have h1 := h b1 (by simp); have h2 := h b2 (by simp)
    have h3 := h b3 (by simp); have h4 := h b4 (by simp)
    intro v hv
    simp only [b32valsOfBytes, b32groupVals, List.mem_append, List.mem_cons,
      List.not_mem_nil, or_false] at hv
    rcases hv with hv | hv
    · rcases hv with rfl | rfl | rfl | rfl | rfl | rfl | rfl | rfl <;> omega
    · exact ih (fun b hb => h b (by simp [hb])) v hv
  | case2 b0 =>
    have h0 := h b0 (by simp)
    intro v hv
    simp only [b32valsOfBytes, b32groupVals, List.take, List.mem_cons,
      List.not_mem_nil, or_false] at hv
    rcases hv with rfl | rfl <;> omega
  | case3 b0 b1 =>
    have h0 := h b0 (by simp); have h1 := h b1 (by simp)
    intro v hv
    simp only [b32valsOfBytes, b32groupVals, List.take, List.mem_cons,
      List.not_mem_nil, or_false] at hv
    rcases hv with rfl | rfl | rfl | rfl <;> omega
  | case4 b0 b1 b2 =>
    have h0 := h b0 (by simp); have h1 := h b1 (by simp); have h2 := h b2 (by simp)
    intro v hv
    simp only [b32valsOfBytes, b32groupVals, List.take, List.mem_cons,
      List.not_mem_nil, or_false] at hv
    rcases hv with rfl | rfl | rfl | rfl | rfl <;> omega
  | case5 b0 b1 b2 b3 =>
    have h0 := h b0 (by simp); have h1 := h b1 (by simp)
    have h2 := h b2 (by simp); have h3 := h b3 (by simp)
    intro v hv
    simp only [b32valsOfBytes, b32groupVals, List.take, List.mem_cons,
      List.not_mem_nil, or_false] at hv
    rcases hv with rfl | rfl | rfl | rfl | rfl | rfl | rfl <;> omega
  | case6 => intro v hv; simp [b32valsOfBytes] at hv

theorem b32bytesOfVals_valsOfBytes (bs : List Nat) (h : ∀ b ∈ bs, b < 256) :
    b32bytesOfVals (b32valsOfBytes bs) = some bs := by
  induction bs using b32valsOfBytes.induct with
  | case1 b0 b1 b2 b3 b4 rest ih =>
    have h0 := h b0 (by simp); have h1 := h b1 (by simp); have h2 := h b2 (by simp)
    have h3 := h b3 (by simp); have h4 := h b4 (by simp)
    have hrec := ih (fun b hb => h b (by simp [hb]))
    have harg : b32valsOfBytes (b0 :: b1 :: b2 :: b3 :: b4 :: rest)
        = b0 / 8 :: (b0 % 8 * 4 + b1 / 64) :: (b1 / 2 % 32) :: (b1 % 2 * 16 + b2 / 16) ::
          (b2 % 16 * 2 + b3 / 128) :: (b3 / 4 % 32) :: (b3 % 4 * 8 + b4 / 32) ::
          (b4 % 32) :: b32valsOfBytes rest := rfl
    rw [harg]
    simp only [b32bytesOfVals, hrec, List.cons_append, List.nil_append,
      Option.some.injEq, List.cons.injEq, and_true]
    omega
  | case2 b0 =>
    have h0 := h b0 (by simp)
    simp only [b32valsOfBytes, b32groupVals, List.take, b32bytesOfVals,
      Option.some.injEq, List.cons.injEq, and_true]
    omega
  | case3 b0 b1 =>
    have h0 := h b0 (by simp); have h1 := h b1 (by simp)
    simp only [b32valsOfBytes, b32groupVals, List.take, b32bytesOfVals,
      Option.some.injEq, List.cons.injEq, and_true]
    omega
  | case4 b0 b1 b2 =>
    have h0 := h b0 (by simp); have h1 := h b1 (by simp); have h2 := h b2 (by simp)
    simp only [b32valsOfBytes, b32groupVals, List.take, b32bytesOfVals,
      Option.some.injEq, List.cons.injEq, and_true]
    omega
  | case5 b0 b1 b2 b3 =>
    have h0 := h b0 (by simp); have h1 := h b1 (by simp)
    have h2 := h b2 (by simp); have h3 := h b3 (by simp)
    simp only [b32valsOfBytes, b32groupVals, List.take, b32bytesOfVals,
      Option.some.injEq, List.cons.injEq, and_true]
    omega
  | case6 => simp [b32valsOfBytes, b32bytesOfVals]

theorem b32valsOfChars_map (vs : List Nat) (h : ∀ v ∈ vs, v < 32) :
    b32valsOfChars (vs.map b32charOfVal) = some vs := by
  induction vs with
  | nil => simp [b32valsOfChars]
  | cons v rest ih =>
    have hv := (b32char_round v (h v (by simp))).2.1
    simp only [List.map_cons, b32valsOfChars, hv,
      ih (fun w hw => h w (by simp [hw]))]

theorem b32decodePy_clean (txt : List Char) (k : Nat)
    (hk8 : (txt.length + k) % 8 = 0) (hkset : k = 0 ∨ k = 1 ∨ k = 3 ∨ k = 4 ∨ k = 6)
    (hnoeq : '=' ∉ txt) :
    b32decodePy (txt ++ List.replicate k '=') =
      match b32valsOfChars txt with
      | none => none
      | some vs => b32bytesOfVals vs := by
  have hlen : (txt ++ List.replicate k '=').length = txt.length + k := by simp
  have hstrip : stripEq (txt ++ List.replicate k '=') = txt :=
    stripEq_append_replicate txt k hnoeq
  simp only [b32decodePy, hlen, hstrip, hk8]
  rw [if_neg (by omega)]
  have hpad : txt.length + k - txt.length = k := by omega
  rw [hpad, if_pos hkset]

/-- C5 — the channel alphabet codec round-trips: decoding the
channel-alphabet encoding of any byte string yields the byte string back. -/
theorem text_to_bytes_bytes_to_text (bs : List Nat) (h : ∀ b ∈ bs, b < 256) :
    text_to_bytes (bytes_to_text bs) = some bs := by
  have hlt : ∀ v ∈ b32valsOfBytes bs, v < 32 := b32valsOfBytes_lt32 bs h
  have hmapup : ((b32valsOfBytes bs).map (fun v => (b32charOfVal v).toLower)).map
      Char.toUpper = (b32valsOfBytes bs).map b32charOfVal := by
    rw [List.map_map]
    exact List.map_congr_left fun v hv => (b32char_round v (hlt v hv)).1
  have hnoeq : '=' ∉ (b32valsOfBytes bs).map b32charOfVal := by
    intro hmem
    rcases List.mem_map.mp hmem with ⟨v, hv, hEq⟩
    exact (b32char_round v (hlt v hv)).2.2 hEq
  unfold text_to_bytes bytes_to_text
  rw [List.map_append, hmapup, List.map_replicate,
    show Char.toUpper '=' = '=' from by decide, List.length_map]
  have hk8 : ((b32valsOfBytes bs).map b32charOfVal).length
      + (8 - (b32valsOfBytes bs).length % 8) % 8 ≡ 0 [MOD 8] := by
    simp only [List.length_map]
    have : ((b32valsOfBytes bs).length + (8 - (b32valsOfBytes bs).length % 8) % 8) % 8
        = 0 := by omega
    simpa [Nat.ModEq] using this
  rw [b32decodePy_clean _ _ (by simpa [Nat.ModEq] using hk8) ?valid hnoeq]
  case valid =>
    rcases b32valsOfBytes_length_mod bs with h5 | h5 | h5 | h5 | h5 <;> omega
  rw [b32valsOfChars_map _ hlt]
  exact b32bytesOfVals_valsOfBytes bs h

theorem c5_witness : text_to_bytes (bytes_to_text [104, 105]) = some [104, 105] :=
  text_to_bytes_bytes_to_text [104, 105] (by decide)

/-! ## Decimal rendering (Python f-string `{n}` for a nonnegative int) -/

def natDigitsAux : Nat → Nat → List Char
  | 0, _ => []
  | fuel + 1, n =>
    if n < 10 then [Char.ofNat (48 + n)]
    else natDigitsAux fuel (n / 10) ++ [Char.ofNat (48 + n % 10)]

def natDigits (n : Nat) : List Char := natDigitsAux (n + 1) n

/-! ## Transport server (`DNSTunnelServer` in dnstunnel.py) -/

/-- One `sendto` argument: what `_create_dns_response` was given.  A reply
with `rdata = none` is the content-less acknowledgment (empty TXT record or
bare loopback A record). -/
structure Reply where
  tid : Nat
  qname : List Char
  qtype : Nat
  rdata : Option (List Char)
  deriving DecidableEq

/-- Mutable server state: `self.sessions` (session id ↦ chunk index ↦ chunk
text), `self.session_metadata` (session id ↦ (declared total, last-activity
time)), `self.response_queue` (session id ↦ list of pre-sliced response
chunk strings). -/
structure ServerState where
  sessions : List (Int × List (Int × List Char))
  session_metadata : List (Int × (Int × Int))
  response_queue : List (Int × List (List Char))
  deriving DecidableEq

def emptyServerState : ServerState := ⟨[], [], []⟩

def recvTag : List Char := ['R', 'E', 'C', 'V']

/-- `DNSTunnelServer._decode_subdomain` (dnstunnel.py 418-438): result is
`(session_id, chunk_num, total_chunks, data)`; any exception (a failing
`int`) is `none`. -/
def decode_subdomain (domain : List Char) (query_name : List Char) :
    Option (Int × Int × Int × List Char) :=
  if domain.isSuffixOf query_name then
    let subdomain := query_name.take (query_name.length - (domain.length + 1))
    if ("recv-".toList).isPrefixOf subdomain then
      let parts := pySplitAll '-' subdomain
      match pyInt (parts.getD 1 []) with
      | none => none
      | some sid =>
        if 2 < parts.length then
          match pyInt (parts.getD 2 []) with
          | none => none
          | some cn => some (sid, cn, -1, recvTag)
        else some (sid, 0, -1, recvTag)
    else
      let parts := pySplitN '-' 3 subdomain
      if parts.length = 4 then
        match pyInt (parts.getD 0 []), pyInt (parts.getD 1 []), pyInt (parts.getD 2 []) with
        | some a, some b, some c => some (a, b, c, parts.getD 3 [])
        | _, _, _ => none
      else none
  else none

/-- `''.join(session_data[i] for i in range(total_chunks))`: `none` models
the `KeyError` a missing index raises (dnstunnel.py line 448 has no
membership guard). -/
def joinChunks (sd : List (Int × List Char)) : Nat → Option (List Char)
  | 0 => some []
  | n + 1 =>
    match joinChunks sd n, alookup sd (n : Int) with
    | some acc, some t => some (acc ++ t)
    | _, _ => none

/-- `DNSTunnelServer._assemble_session_data` (dnstunnel.py 440-454).  Only
the base32 decode sits in a `try`; the join itself can raise (`.error`). -/
def assemble_session_data (st : ServerState) (sid : Int) :
    Except Unit (Option (List Nat)) :=
  match alookup st.session_metadata sid with
  | none => .ok none
  | some (total, _) =>
    if (((alookup st.sessions sid).getD []).length : Int) ≠ total then .ok none
    else
      match joinChunks ((alookup st.sessions sid).getD []) total.toNat with
      | none => .error ()
      | some s => .ok (text_to_bytes s)

/-- Python `l[i]` including negative indexing; `none` is `IndexError`. -/
def pyIndex {α : Type} (l : List α) (i : Int) : Option α :=
  if 0 ≤ i then l.get? i.toNat
  else if 0 ≤ i + l.length then l.get? (i + l.length).toNat
  else none

structure HandleResult where
  state : ServerState
  sent : List Reply
  callbacks : List (Int × List Nat)
  deriving DecidableEq

/-- The upload path of `_handle_query` (dnstunnel.py 399-416): store the
chunk, stamp metadata `(total, now)`, attempt reassembly; on a truthy
payload invoke the callback and delete the upload state; reply with a
content-less acknowledgment — unless reassembly raised (`.error`). -/
def handle_upload (st : ServerState) (now : Int) (tid : Nat) (qname : List Char)
    (qtype : Nat) (sid chunk_num total : Int) (data : List Char) :
    Except Unit HandleResult :=
  let st1 : ServerState :=
    { st with
      sessions := ainsert st.sessions sid
        (ainsert ((alookup st.sessions sid).getD []) chunk_num data),
      session_metadata := ainsert st.session_metadata sid (total, now) }
  match assemble_session_data st1 sid with
  | .error e => .error e
  | .ok (some payload) =>
    if payload ≠ [] then
      .ok ⟨{ st1 with
             sessions := aerase st1.sessions sid,
             session_metadata := aerase st1.session_metadata sid },
           [⟨tid, qname, qtype, none⟩], [(sid, payload)]⟩
    else .ok ⟨st1, [⟨tid, qname, qtype, none⟩], []⟩
  | .ok none => .ok ⟨st1, [⟨tid, qname, qtype, none⟩], []⟩

/-- `DNSTunnelServer._handle_query` (dnstunnel.py 358-416) after
`_parse_dns_query` succeeded, for one datagram.  `now` is `time.time()`;
`.error ()` is an uncaught exception: the handler thread dies and nothing
is sent.  `callbacks` records `on_data_received` invocations. -/
def handle_query_parsed (domain : List Char) (st : ServerState) (now : Int)
    (tid : Nat) (qname : List Char) (qtype : Nat) : Except Unit HandleResult :=
  match decode_subdomain domain qname with
  | none => .ok ⟨st, [⟨tid, qname, qtype, none⟩], []⟩
  | some (sid, chunk_num, total, data) =>
    if data = recvTag then
      match alookup st.response_queue sid with
      | some chunks =>
        if chunk_num < (chunks.length : Int) then
          match pyIndex chunks chunk_num with
          | none => .error ()
          | some rd =>
            let st' :=
              if (chunks.length : Int) - 1 ≤ chunk_num then
                { st with response_queue := aerase st.response_queue sid }
              else st
            .ok ⟨st', [⟨tid, qname, qtype, some rd⟩], []⟩
        else .ok ⟨st, [⟨tid, qname, qtype, none⟩], []⟩
      | none => .ok ⟨st, [⟨tid, qname, qtype, none⟩], []⟩
    else handle_upload st now tid qname qtype sid chunk_num total data

/-- The `f"CHUNK:{i}/{total_chunks}:"` header. -/
def chunkHdr (i total : Nat) : List Char :=
  "CHUNK:".toList ++ natDigits i ++ '/' :: natDigits total ++ [':']

/-- The chunk list built by the `for i in range(total_chunks)` loop of
`queue_response`. -/
def queueChunks (encoded : List Char) (eff total : Nat) : List (List Char) :=
  (List.range total).map (fun i => chunkHdr i total ++ (encoded.drop (i * eff)).take eff)

/-- `DNSTunnelServer.queue_response` (dnstunnel.py 280-313), with the
default `max_chunk_size = 180` and `header_overhead = 20`. -/
def queue_response (st : ServerState) (sid : Int) (data : List Nat) : ServerState :=
  let encoded := bytes_to_text data
  let eff := 180 - 20
  if encoded.length ≤ eff then
    { st with response_queue := ainsert st.response_queue sid [encoded] }
  else
    let total := (encoded.length + eff - 1) / eff
    { st with
      response_queue := ainsert st.response_queue sid (queueChunks encoded eff total) }

deriving instance DecidableEq for Except

/-! ## Wire codec (dnstunnel.py) -/

/-- `bytes.decode('ascii', errors='ignore')`: non-ASCII bytes are dropped. -/
def asciiIgnore (bs : List Nat) : List Char :=
  (bs.filter (fun b => decide (b < 128))).map Char.ofNat

def pack16 (n : Nat) : List Nat := [n / 256 % 256, n % 256]

/-- `DNSTunnelClient._create_dns_query` (dnstunnel.py 190-203): header with
flags `0x0100` and one question; `none` models the `struct.error` /
`UnicodeEncodeError` an oversized or non-ASCII label would raise. -/
def create_dns_query (tid : Nat) (subdomain domain : List Char) (qtype : Nat) :
    Option (List Nat) :=
  let labs := pySplitAll '.' (subdomain ++ '.' :: domain)
  if tid < 65536 ∧ qtype < 65536 ∧
      labs.all (fun l => decide (l.length ≤ 255) && l.all (fun c => decide (c.toNat ≤ 127))) then
    some ([tid / 256 % 256, tid % 256, 1, 0, 0, 1, 0, 0, 0, 0, 0, 0]
      ++ labs.flatMap (fun l => l.length :: l.map Char.toNat)
      ++ [0] ++ pack16 qtype ++ [0, 1])
  else none

/-- Label walk of `DNSTunnelServer._parse_dns_query` (dnstunnel.py 463-468):
no length validation at all; Python slices clamp at the buffer end.  The
fuel (`data.length` at the top call) never runs out because every step
advances the offset. -/
def dtWalkAux (data : List Nat) : Nat → Nat → List (List Nat) × Nat
  | 0, o => ([], o)
  | fuel + 1, o =>
    if o < data.length ∧ data.getD o 0 ≠ 0 then
      ((data.drop (o + 1)).take (data.getD o 0)
        :: (dtWalkAux data fuel (o + 1 + data.getD o 0)).1,
       (dtWalkAux data fuel (o + 1 + data.getD o 0)).2)
    else ([], o)

/-- `DNSTunnelServer._parse_dns_query` (dnstunnel.py 456-474): the final
`struct.unpack('!H', ...)` raises (→ `none`) unless two bytes remain. -/
def parse_dns_query (data : List Nat) : Option (Nat × List Char × Nat) :=
  if data.length < 12 then none
  else
    if (dtWalkAux data data.length 12).2 + 1 + 2 ≤ data.length then
      some (data.getD 0 0 * 256 + data.getD 1 0,
            (List.intercalate ['.']
              ((dtWalkAux data data.length 12).1.map asciiIgnore)).map Char.toLower,
            data.getD ((dtWalkAux data data.length 12).2 + 1) 0 * 256
              + data.getD ((dtWalkAux data data.length 12).2 + 2) 0)
    else none

/-- Fixed-width slicing loop (`for i in range(0, len(x), size)`). -/
def sliceEveryAux {α : Type} (size : Nat) : Nat → List α → List (List α)
  | 0, _ => []
  | _, [] => []
  | fuel + 1, s => s.take size :: sliceEveryAux size fuel (s.drop size)

def sliceEvery {α : Type} (size : Nat) (s : List α) : List (List α) :=
  sliceEveryAux size s.length s

/-- `DNSTunnelServer._create_dns_response` (dnstunnel.py 476-511): flags
`0x8180`, echoed question, one answer (compression pointer, type, class,
TTL 300); an A answer carries `127.0.0.1`, a TXT answer carries the text in
≤255-byte length-prefixed segments, or a single zero-length segment when
the text is absent or empty.  `none` models a `struct.error` or
`UnicodeEncodeError`. -/
def create_dns_response_bytes (tid : Nat) (qname : List Char) (qtype : Nat)
    (rdata : Option (List Char)) : Option (List Nat) :=
  let labs := (pySplitAll '.' qname).filter (fun l => !l.isEmpty)
  if tid < 65536 ∧ qtype < 65536 ∧
      labs.all (fun l => decide (l.length ≤ 255) && l.all (fun c => decide (c.toNat ≤ 127))) then
    let header := [tid / 256 % 256, tid % 256, 0x81, 0x80, 0, 1, 0, 1, 0, 0, 0, 0]
    let question := labs.flatMap (fun l => l.length :: l.map Char.toNat)
      ++ [0] ++ pack16 qtype ++ [0, 1]
    let answerHead := [0xc0, 0x0c] ++ pack16 qtype ++ [0, 1] ++ [0, 0, 1, 44]
    if qtype = 1 then
      some (header ++ question ++ answerHead ++ pack16 4 ++ [127, 0, 0, 1])
    else if qtype = 16 then
      match rdata with
      | some t =>
        if t ≠ [] then
          if t.all (fun c => decide (c.toNat ≤ 127)) then
            let txtRecord := (sliceEvery 255 (t.map Char.toNat)).flatMap
              (fun c => c.length :: c)
            if txtRecord.length < 65536 then
              some (header ++ question ++ answerHead ++ pack16 txtRecord.length ++ txtRecord)
            else none
          else none
        else some (header ++ question ++ answerHead ++ pack16 1 ++ [0])
      | none => some (header ++ question ++ answerHead ++ pack16 1 ++ [0])
    else some (header ++ question ++ answerHead)
  else none

/-- First skip loop of `DNSTunnelClient._parse_dns_response`: walk
length-prefixed labels to the zero byte; direct indexing raises
`IndexError` past the end (→ `none`). -/
def respSkipName (resp : List Nat) : Nat → Nat → Option Nat
  | 0, o => if resp.length ≤ o then none else some o
  | fuel + 1, o =>
    if resp.length ≤ o then none
    else if resp.getD o 0 = 0 then some o
    else respSkipName resp fuel (o + resp.getD o 0 + 1)

/-- TXT segment loop of `_parse_dns_response`: a segment running past the
data breaks the loop, keeping earlier segments. -/
def txtSegsAux (dat : List Nat) : Nat → Nat → List (List Char)
  | 0, _ => []
  | fuel + 1, i =>
    if i < dat.length then
      let slen := dat.getD i 0
      if dat.length < i + 1 + slen then []
      else asciiIgnore ((dat.drop (i + 1)).take slen) :: txtSegsAux dat fuel (i + 1 + slen)
    else []

/-- `DNSTunnelClient._parse_dns_response` (dnstunnel.py 205-238). -/
def parse_dns_response (resp : List Nat) : Option (List Char) :=
  match respSkipName resp resp.length 12 with
  | none => none
  | some q =>
    let o1 := q + 5
    if resp.length ≤ o1 then none
    else
      let nameEnd : Option Nat :=
        if resp.getD o1 0 &&& 0xC0 ≠ 0 then some (o1 + 2)
        else
          match respSkipName resp resp.length o1 with
          | none => none
          | some z => some (z + 1)
      match nameEnd with
      | none => none
      | some o2 =>
        let o3 := o2 + 8
        if resp.length < o3 + 2 then none
        else
          let dlen := resp.getD o3 0 * 256 + resp.getD (o3 + 1) 0
          let dat := (resp.drop (o3 + 2)).take dlen
          let segs := txtSegsAux dat dat.length 0
          if segs.isEmpty then none else some segs.flatten

/-- Decode step of `DNSTunnelClient._receive_chunk` (dnstunnel.py 148-154):
the whole TXT text — chunk header included — is base32-decoded; an empty or
absent text, or any decode error, yields `None`. -/
def receive_chunk_decode (resp : List Nat) : Option (List Nat) :=
  match parse_dns_response resp with
  | none => none
  | some t => if t = [] then none else text_to_bytes t

/-! ## Client receive loop (`DNSTunnelClient.receive`, dnstunnel.py 82-130)

`poll i s` abstracts `_receive_chunk(i)` against environment state `s`;
the result also counts the polls issued.  The loop runs while
`chunk_num < max_chunks`, so the fuel is `max_chunks - chunk_num`.  (The
`total_chunks` variable of the source is recorded but never read back,
so it is dropped here.) -/

def chunkHdrBytes : List Nat := "CHUNK:".toList.map Char.toNat

def receiveAux {σ : Type} (poll : Nat → σ → Option (List Nat) × σ) :
    σ → Nat → Nat → List (List Nat) → Option (List Nat) × Nat × σ
  | s, 0, _, allData =>
    (if allData ≠ [] then some allData.flatten else none, 0, s)
  | s, fuel + 1, chunkNum, allData =>
    match poll chunkNum s with
    | (none, s') => (if allData ≠ [] then some allData.flatten else none, 1, s')
    | (some cd, s') =>
      if chunkHdrBytes.isPrefixOf cd then
        match pySplitN 58 3 cd with
        | [_, header, dat] =>
          match pySplitAll 47 header with
          | p0 :: p1 :: _ =>
            match pyInt (asciiIgnore p0), pyInt (asciiIgnore p1) with
            | some current, some total =>
              if total ≤ current + 1 then
                (some (allData ++ [dat]).flatten, 1, s')
              else
                match receiveAux poll s' fuel (chunkNum + 1) (allData ++ [dat]) with
                | (r, c, s'') => (r, c + 1, s'')
            | _, _ => (some cd, 1, s')
          | _ => (some cd, 1, s')
        | _ => (some cd, 1, s')
      else (some cd, 1, s')

def receive {σ : Type} (poll : Nat → σ → Option (List Nat) × σ) (s : σ)
    (maxChunks : Nat) : Option (List Nat) × Nat × σ :=
  receiveAux poll s maxChunks 0 []

/-! ## End-to-end download harness (for the chunked-download claim)

`_handle_query` on raw bytes, and one `_receive_chunk` round trip: the
client frames `recv-{session}-{index}` as a type-16 query, the server
handles the datagram, the client parses the reply's TXT text and
base32-decodes it. -/

def handle_datagram (domain : List Char) (st : ServerState) (now : Int)
    (data : List Nat) : Except Unit HandleResult :=
  match parse_dns_query data with
  | none => .ok ⟨st, [], []⟩
  | some (tid, qname, qtype) => handle_query_parsed domain st now tid qname qtype

def downloadPoll (domain : List Char) (sid : Nat) (chunkNum : Nat)
    (st : ServerState) : Option (List Nat) × ServerState :=
  match create_dns_query 7 ("recv-".toList ++ natDigits sid ++ '-' :: natDigits chunkNum)
      domain 16 with
  | none => (none, st)
  | some q =>
    match handle_datagram domain st 0 q with
    | .error _ => (none, st)
    | .ok r =>
      match r.sent.head? with
      | none => (none, r.state)
      | some rep =>
        match create_dns_response_bytes rep.tid rep.qname rep.qtype rep.rdata with
        | none => (none, r.state)
        | some respBytes => (receive_chunk_decode respBytes, r.state)

/-- `DNSTunnelClient.receive` polling a `DNSTunnelServer` whose state is
`st`, with the client's default `max_chunks`. -/
def runDownload (domain : List Char) (sid : Nat) (st : ServerState)
    (maxChunks : Nat) : Option (List Nat) :=
  (receive (downloadPoll domain sid) st maxChunks).1

/-! ## The standalone server (server.py)

server.py keeps one encoded string (not a chunk list) per session in
`response_queue`, validates label lengths in its query parser, and runs the
idle sweep `_cleanup_old_sessions`.
-/

structure SpState where
  sessions : List (Int × List (Int × List Char))
  session_metadata : List (Int × (Int × Int))
  response_queue : List (Int × List Char)
  deriving DecidableEq

/-- Label walk of server.py's `_parse_dns_query` (lines 61-72): a length
byte over 63, or a label running past the packet, returns `None`. -/
def spWalkAux (data : List Nat) : Nat → Nat → Option (List (List Nat) × Nat)
  | 0, o => some ([], o)
  | fuel + 1, o =>
    if o < data.length ∧ data.getD o 0 ≠ 0 then
      if 63 < data.getD o 0 then none
      else if data.length < o + 1 + data.getD o 0 then none
      else
        match spWalkAux data fuel (o + 1 + data.getD o 0) with
        | none => none
        | some (labs, e) => some ((data.drop (o + 1)).take (data.getD o 0) :: labs, e)
    else some ([], o)

/-- server.py `DNSTunnelServer._parse_dns_query` (lines 42-94). -/
def sp_parse_dns_query (data : List Nat) : Option (Nat × List Char × Nat) :=
  if data.length < 12 then none
  else
    match spWalkAux data data.length 12 with
    | none => none
    | some (labs, e) =>
      if data.length ≤ e then none
      else if data.length < e + 1 + 4 then none
      else
        some (data.getD 0 0 * 256 + data.getD 1 0,
              (List.intercalate ['.'] (labs.map asciiIgnore)).map Char.toLower,
              data.getD (e + 1) 0 * 256 + data.getD (e + 2) 0)

/-- One pass of the sweep loop body of `_cleanup_old_sessions`
(server.py 221-240): every session whose last activity lies more than 300
seconds in the past loses its upload state, metadata and queued response. -/
def cleanup_old_sessions (st : SpState) (now : Int) : SpState :=
  let expired := (st.session_metadata.filter (fun p => decide (300 < now - p.2.2))).map
    (fun p => p.1)
  { sessions := st.sessions.filter (fun p => !expired.contains p.1),
    session_metadata := st.session_metadata.filter (fun p => !expired.contains p.1),
    response_queue := st.response_queue.filter (fun p => !expired.contains p.1) }

/-- The `RECV` branch of server.py's `handle_query` (lines 274-287): reply
with the queued string if any, deleting it only when it is truthy. -/
def sp_handle_recv (st : SpState) (sid : Int) (tid : Nat) (qname : List Char)
    (qtype : Nat) : SpState × Reply :=
  match alookup st.response_queue sid with
  | some rd =>
    (if rd ≠ [] then { st with response_queue := aerase st.response_queue sid } else st,
     ⟨tid, qname, qtype, some rd⟩)
  | none => (st, ⟨tid, qname, qtype, none⟩)

/-! ## Label chains of a datagram

The offsets `12, o+1+data[o], …` a label walk visits, independent of any
validation — used to state which datagrams contain an over-63 label or a
label running past the buffer. -/

def chainOffsetsAux (data : List Nat) : Nat → Nat → List Nat
  | 0, _ => []
  | fuel + 1, o =>
    if o < data.length ∧ data.getD o 0 ≠ 0 then
      o :: chainOffsetsAux data fuel (o + 1 + data.getD o 0)
    else []

def chainOffsets (data : List Nat) : List Nat := chainOffsetsAux data data.length 12

def chainEndAux (data : List Nat) : Nat → Nat → Nat
  | 0, o => o
  | fuel + 1, o =>
    if o < data.length ∧ data.getD o 0 ≠ 0 then
      chainEndAux data fuel (o + 1 + data.getD o 0)
    else o

def chainEnd (data : List Nat) : Nat := chainEndAux data data.length 12

/-- Some visited label has a length byte over 63. -/
def hasOver63 (data : List Nat) : Bool :=
  (chainOffsets data).any (fun o => decide (63 < data.getD o 0))

/-- Some visited label runs past the end of the buffer. -/
def hasOverrun (data : List Nat) : Bool :=
  (chainOffsets data).any (fun o => decide (data.length < o + 1 + data.getD o 0))

/-- Truncated: shorter than a header, or no room for the terminator plus
the 4 type/class bytes after the label walk. -/
def truncated (data : List Nat) : Bool :=
  decide (data.length < 12) || decide (data.length < chainEnd data + 5)

/-! ## Association-map lemmas -/

theorem alookup_mem {κ α : Type} [DecidableEq κ] {m : List (κ × α)} {k : κ} {v : α}
    (h : alookup m k = some v) : (k, v) ∈ m := by
  induction m with
  | nil => simp [alookup] at h
  | cons p rest ih =>
    obtain ⟨k', v'⟩ := p
    by_cases hk : k' = k
    · subst hk
      simp [alookup] at h
      simp [h]
    · simp only [alookup, if_neg hk] at h
      exact List.mem_cons_of_mem _ (ih h)

theorem alookup_filter_not_contains {α : Type} {m : List (Int × α)} {ex : List Int}
    {k : Int} (h : k ∈ ex) :
    alookup (m.filter (fun p => !ex.contains p.1)) k = none := by
  induction m with
  | nil => simp [alookup]
  | cons p rest ih =>
    obtain ⟨k', v'⟩ := p
    simp only [List.filter_cons]
    by_cases hm : k' ∈ ex
    · have hc : (!ex.contains k') = false := by simpa using hm
      rw [hc]
      simpa using ih
    · have hc : (!ex.contains k') = true := by simpa using hm
      rw [hc]
      have hk : k' ≠ k := fun hEq => hm (hEq ▸ h)
      simp only [if_pos rfl, alookup, if_neg hk]
      exact ih

theorem alookup_ainsert_self {κ α : Type} [DecidableEq κ] (m : List (κ × α)) (k : κ)
    (v : α) : alookup (ainsert m k v) k = some v := by
  induction m with
  | nil => simp [ainsert, alookup]
  | cons p rest ih =>
    obtain ⟨k', v'⟩ := p
    by_cases hk : k' = k
    · simp [ainsert, hk, alookup]
    · simp [ainsert, hk, alookup, ih]

theorem alookup_aerase_self {κ α : Type} [DecidableEq κ] (m : List (κ × α)) (k : κ) :
    alookup (aerase m k) k = none := by
  induction m with
  | nil => simp [aerase, alookup]
  | cons p rest ih =>
    obtain ⟨k', v'⟩ := p
    by_cases hk : k' = k
    · simpa [aerase, hk] using ih
    · simp only [aerase, if_neg hk, alookup]
      simp [hk, ih]

theorem ainsert_of_lookup_none {κ α : Type} [DecidableEq κ] {m : List (κ × α)} {k : κ}
    (v : α) (h : alookup m k = none) : ainsert m k v = m ++ [(k, v)] := by
  induction m with
  | nil => simp [ainsert]
  | cons p rest ih =>
    obtain ⟨k', v'⟩ := p
    by_cases hk : k' = k
    · simp [alookup, hk] at h
    · simp only [alookup, if_neg hk] at h
      simp [ainsert, hk, ih h]

theorem alookup_none_of_not_mem_keys {κ α : Type} [DecidableEq κ] {m : List (κ × α)}
    {k : κ} (h : k ∉ m.map Prod.fst) : alookup m k = none := by
  induction m with
  | nil => simp [alookup]
  | cons p rest ih =>
    obtain ⟨k', v'⟩ := p
    simp only [List.map_cons, List.mem_cons] at h
    push_neg at h
    have hk : k' ≠ k := fun hEq => h.1 hEq.symm
    simp [alookup, hk, ih h.2]

theorem alookup_of_nodup_mem {κ α : Type} [DecidableEq κ] {m : List (κ × α)} {k : κ}
    {v : α} (hnd : (m.map Prod.fst).Nodup) (hmem : (k, v) ∈ m) :
    alookup m k = some v := by
  induction m with
  | nil => simp at hmem
  | cons p rest ih =>
    obtain ⟨k', v'⟩ := p
    simp only [List.map_cons, List.nodup_cons] at hnd
    rcases List.mem_cons.mp hmem with hEq | hmem'
    · injection hEq with h1 h2
      subst h1; subst h2
      simp [alookup]
    · have hk : k' ≠ k := by
        rintro rfl
        exact hnd.1 (List.mem_map.mpr ⟨(k', v), hmem', rfl⟩)
      simp [alookup, hk, ih hnd.2 hmem']

/-! ## Claim theorems -/

/-- C8 — a parseable query whose name does not end with the configured
domain suffix leaves the whole session store unchanged and gets exactly one
content-less reply echoing the query type. -/
theorem c8_unmatched_domain_frame (domain : List Char) (st : ServerState) (now : Int)
    (tid qtype : Nat) (qname : List Char)
    (h : domain.isSuffixOf qname = false) :
    handle_query_parsed domain st now tid qname qtype
      = .ok ⟨st, [⟨tid, qname, qtype, none⟩], []⟩ := by
  simp [handle_query_parsed, decode_subdomain, h]

theorem c8_witness :
    handle_query_parsed "example.com".toList emptyServerState 0 3
      "a.other.org".toList 16
      = .ok ⟨emptyServerState, [⟨3, "a.other.org".toList, 16, none⟩], []⟩ :=
  c8_unmatched_domain_frame _ _ _ _ _ _ (by decide)

/-- C4 (counterexample) — a query matching the domain whose subdomain is
neither shape (`hello`) is *answered* with a content-less reply, not
dropped: the sent list is nonempty. -/
theorem c4_counterexample :
    ("example.com".toList).isSuffixOf ("hello.example.com".toList) = true ∧
    decode_subdomain "example.com".toList "hello.example.com".toList = none ∧
    (handle_query_parsed "example.com".toList emptyServerState 0 3
        "hello.example.com".toList 1).map (fun r => r.sent)
      ≠ .ok [] ∧
    (handle_query_parsed "example.com".toList emptyServerState 0 3
        "hello.example.com".toList 1).map (fun r => r.sent)
      = .ok [⟨3, "hello.example.com".toList, 1, none⟩] :=
  ⟨by decide, by decide, by decide, by decide⟩

/-- C4 (amended) — a matching-domain query whose subdomain decodes as
neither a recv poll nor a four-field upload gets exactly one content-less
reply of the original query type, and the store is unchanged (the code
replies instead of dropping). -/
theorem c4_amended (domain : List Char) (st : ServerState) (now : Int)
    (tid qtype : Nat) (qname : List Char)
    (_hmatch : domain.isSuffixOf qname = true)
    (hshape : decode_subdomain domain qname = none) :
    handle_query_parsed domain st now tid qname qtype
      = .ok ⟨st, [⟨tid, qname, qtype, none⟩], []⟩ := by
  simp [handle_query_parsed, hshape]

theorem c4_amended_witness :
    handle_query_parsed "example.com".toList emptyServerState 0 3
      "hello.example.com".toList 1
      = .ok ⟨emptyServerState, [⟨3, "hello.example.com".toList, 1, none⟩], []⟩ :=
  c4_amended _ _ _ _ _ _ (by decide) (by decide)

/-- C2 — a session whose last activity lies more than the 300-second window
before `now` is gone from all three maps after one sweep pass, and a
subsequent poll for it gets a content-less reply and changes nothing. -/
theorem c2_idle_sessions_expire (st : SpState) (now : Int) (sid total last : Int)
    (tid qtype : Nat) (qname : List Char)
    (hmeta : alookup st.session_metadata sid = some (total, last))
    (hidle : 300 < now - last) :
    alookup (cleanup_old_sessions st now).sessions sid = none ∧
    alookup (cleanup_old_sessions st now).session_metadata sid = none ∧
    alookup (cleanup_old_sessions st now).response_queue sid = none ∧
    sp_handle_recv (cleanup_old_sessions st now) sid tid qname qtype
      = (cleanup_old_sessions st now, ⟨tid, qname, qtype, none⟩) := by
  have hin : sid ∈ (st.session_metadata.filter
      (fun p => decide (300 < now - p.2.2))).map (fun p => p.1) := by
    refine List.mem_map.mpr ⟨(sid, (total, last)), ?_, rfl⟩
    exact List.mem_filter.mpr ⟨alookup_mem hmeta, by simpa using hidle⟩
  have h1 : alookup (cleanup_old_sessions st now).sessions sid = none :=
    alookup_filter_not_contains hin
  have h2 : alookup (cleanup_old_sessions st now).session_metadata sid = none :=
    alookup_filter_not_contains hin
  have h3 : alookup (cleanup_old_sessions st now).response_queue sid = none :=
    alookup_filter_not_contains hin
  exact ⟨h1, h2, h3, by simp [sp_handle_recv, h3]⟩

theorem c2_witness :
    alookup (cleanup_old_sessions ⟨[(5, [(0, ['x'])])], [(5, (1, 0))],
        [(5, ['n', 'b'])]⟩ 301).response_queue 5 = none ∧
    sp_handle_recv (cleanup_old_sessions ⟨[(5, [(0, ['x'])])], [(5, (1, 0))],
        [(5, ['n', 'b'])]⟩ 301) 5 9 "recv-5.example.com".toList 16
      = (cleanup_old_sessions ⟨[(5, [(0, ['x'])])], [(5, (1, 0))],
          [(5, ['n', 'b'])]⟩ 301, ⟨9, "recv-5.example.com".toList, 16, none⟩) := by
  have h := c2_idle_sessions_expire ⟨[(5, [(0, ['x'])])], [(5, (1, 0))],
    [(5, ['n', 'b'])]⟩ 301 5 1 0 9 16 "recv-5.example.com".toList
    (by decide) (by decide)
  exact ⟨h.2.2.1, h.2.2.2⟩

/-- C3 — the failing input: one upload datagram `100-1-1-abc` stores its
chunk at index 1 with declared total 1; the stored count matches the total
but index 0 is missing, so `_assemble_session_data` raises `KeyError`
(`.error ()`): the handler dies and no reply is sent, contradicting the
claim that it always completes and acknowledges. -/
theorem c3_upload_handler_raises :
    handle_query_parsed "example.com".toList emptyServerState 0 9
      "100-1-1-abc.example.com".toList 1 = .error () := by decide

/-- C1 — the failing input: a 101-byte payload encodes to 162 channel
characters, over the 160-character single-answer budget, so
`queue_response` frames it as `CHUNK:i/2:` chunks; the client's
`_receive_chunk` base32-decodes the whole TXT text, chokes on `:` and `/`,
returns `None`, and `receive` yields `None` instead of the payload. -/
theorem c1_chunked_download_lost :
    160 < (bytes_to_text (List.replicate 101 0)).length ∧
    runDownload "example.com".toList 1234
      (queue_response emptyServerState 1234 (List.replicate 101 0)) 100 = none :=
  ⟨by decide, by decide⟩

theorem receiveAux_poll_bound {σ : Type} (poll : Nat → σ → Option (List Nat) × σ) :
    ∀ (fuel chunkNum : Nat) (allData : List (List Nat)) (s : σ),
      (receiveAux poll s fuel chunkNum allData).2.1 ≤ fuel := by
  intro fuel
  induction fuel with
  | zero => intro cn ad s; simp [receiveAux]
  | succ n ih =>
    intro cn ad s
    simp only [receiveAux]
    rcases hpoll : poll cn s with ⟨cd?, s'⟩
    rcases cd? with _ | cd
    · simp
    · simp only []
      have hb : ∀ ad2 : List (List Nat),
          (match receiveAux poll s' n (cn + 1) ad2 with
           | (r, c, s'') => (r, c + 1, s'')).2.1 ≤ n + 1 := by
        intro ad2
        rcases hrec : receiveAux poll s' n (cn + 1) ad2 with ⟨r, c, s''⟩
        have h2 := ih (cn + 1) ad2 s'
        rw [hrec] at h2
        simpa using Nat.succ_le_succ h2
      (repeat' split) <;> first | exact hb _ | simp

/-- C9 — `receive` issues at most `max_chunks` polls, whatever each poll
returns, and terminates with the accumulated bytes or `None`. -/
theorem c9_receive_bounded {σ : Type} (poll : Nat → σ → Option (List Nat) × σ)
    (s : σ) (maxChunks : Nat) (_h : 0 < maxChunks) :
    (receive poll s maxChunks).2.1 ≤ maxChunks :=
  receiveAux_poll_bound poll maxChunks 0 [] s

theorem c9_witness :
    (receive (fun _ (s : Unit) => (none, s)) () 3).2.1 ≤ 3 :=
  c9_receive_bounded _ () 3 (by decide)

/-! ## Parser robustness lemmas -/

/-- A label start that is over-63 or runs past the buffer. -/
def badLabelAt (data : List Nat) (j : Nat) : Bool :=
  decide (63 < data.getD j 0) || decide (data.length < j + 1 + data.getD j 0)

theorem badLabelAt_false (data : List Nat) (o : Nat) (h63 : ¬63 < data.getD o 0)
    (hov : ¬data.length < o + 1 + data.getD o 0) : badLabelAt data o = false := by
  unfold badLabelAt
  rw [decide_eq_false h63, decide_eq_false hov]
  rfl

theorem spWalkAux_none_of_bad (data : List Nat) :
    ∀ fuel o, (chainOffsetsAux data fuel o).any (badLabelAt data) = true →
      spWalkAux data fuel o = none := by
  intro fuel
  induction fuel with
  | zero => intro o h; simp [chainOffsetsAux] at h
  | succ n ih =>
    intro o h
    by_cases hg : o < data.length ∧ data.getD o 0 ≠ 0
    · rw [chainOffsetsAux, if_pos hg, List.any_cons] at h
      rw [spWalkAux, if_pos hg]
      by_cases h63 : 63 < data.getD o 0
      · rw [if_pos h63]
      · rw [if_neg h63]
        by_cases hov : data.length < o + 1 + data.getD o 0
        · rw [if_pos hov]
        · rw [if_neg hov]
          rw [badLabelAt_false data o h63 hov, Bool.false_or] at h
          rw [ih _ h]
    · rw [chainOffsetsAux, if_neg hg] at h
      simp at h

theorem spWalkAux_some_of_good (data : List Nat) :
    ∀ fuel o, (chainOffsetsAux data fuel o).any (badLabelAt data) = false →
      ∃ labs, spWalkAux data fuel o = some (labs, chainEndAux data fuel o) := by
  intro fuel
  induction fuel with
  | zero => intro o _; exact ⟨[], by rw [spWalkAux, chainEndAux]⟩
  | succ n ih =>
    intro o h
    by_cases hg : o < data.length ∧ data.getD o 0 ≠ 0
    · rw [chainOffsetsAux, if_pos hg, List.any_cons, Bool.or_eq_false_iff] at h
      have h63 : ¬63 < data.getD o 0 := by
        intro hc
        have : badLabelAt data o = true := by
          unfold badLabelAt
          rw [decide_eq_true hc]
          rfl
        rw [this] at h
        exact absurd h.1 (by simp)
      have hov : ¬data.length < o + 1 + data.getD o 0 := by
        intro hc
        have : badLabelAt data o = true := by
          unfold badLabelAt
          rw [decide_eq_true hc]
          simp
        rw [this] at h
        exact absurd h.1 (by simp)
      obtain ⟨labs', hrec⟩ := ih (o + 1 + data.getD o 0) h.2
      refine ⟨(data.drop (o + 1)).take (data.getD o 0) :: labs', ?_⟩
      rw [spWalkAux, if_pos hg, if_neg h63, if_neg hov, hrec,
        chainEndAux, if_pos hg]
    · exact ⟨[], by rw [spWalkAux, if_neg hg, chainEndAux, if_neg hg]⟩

theorem chainEndAux_past_of_overrun (data : List Nat) :
    ∀ fuel o, (chainOffsetsAux data fuel o).any
        (fun j => decide (data.length < j + 1 + data.getD j 0)) = true →
      data.length < chainEndAux data fuel o := by
  intro fuel
  induction fuel with
  | zero => intro o h; simp [chainOffsetsAux] at h
  | succ n ih =>
    intro o h
    by_cases hg : o < data.length ∧ data.getD o 0 ≠ 0
    · rw [chainOffsetsAux, if_pos hg, List.any_cons] at h
      rw [chainEndAux, if_pos hg]
      by_cases hov : data.length < o + 1 + data.getD o 0
      · have hEnd : chainEndAux data n (o + 1 + data.getD o 0)
            = o + 1 + data.getD o 0 := by
          cases n with
          | zero => rw [chainEndAux]
          | succ m =>
            rw [chainEndAux, if_neg]
            rintro ⟨hc, -⟩
            omega
        omega
      · rw [decide_eq_false hov, Bool.false_or] at h
        exact ih _ h
    · rw [chainOffsetsAux, if_neg hg] at h
      simp at h

theorem dtWalkAux_end_eq_chainEnd (data : List Nat) :
    ∀ fuel o, (dtWalkAux data fuel o).2 = chainEndAux data fuel o := by
  intro fuel
  induction fuel with
  | zero => intro o; rw [dtWalkAux, chainEndAux]
  | succ n ih =>
    intro o
    by_cases hg : o < data.length ∧ data.getD o 0 ≠ 0
    · rw [dtWalkAux, if_pos hg, chainEndAux, if_pos hg]
      show (dtWalkAux data n (o + 1 + data.getD o 0)).2 = _
      exact ih _
    · rw [dtWalkAux, if_neg hg, chainEndAux, if_neg hg]

/-- C6 (amended) — server.py's decoder returns the drop signal `None` on
every truncated datagram (short header, or too few bytes after the label
walk for the terminator plus the 4 type/class bytes), every over-63 label
length and every label running past the buffer.  dnstunnel.py's decoder
returns `None` exactly when the datagram is shorter than 12 bytes or fewer
than 3 bytes (terminator plus the 2 type bytes) remain after the label
walk — so every past-buffer label yields `None` (the walk leaves the
buffer), but it validates neither label lengths nor the class bytes: an
in-buffer over-63 label and a datagram truncated only in its class field
are both parsed (see the counterexample). -/
theorem c6_amended :
    (∀ data : List Nat, (truncated data || hasOver63 data || hasOverrun data) = true →
      sp_parse_dns_query data = none) ∧
    (∀ data : List Nat, parse_dns_query data = none ↔
      (data.length < 12 ∨ data.length < chainEnd data + 3)) ∧
    (∀ data : List Nat, hasOverrun data = true →
      data.length < chainEnd data + 3) := by
  have hmono : ∀ (data : List Nat) (f1 : Nat → Bool),
      (∀ j, f1 j = true → badLabelAt data j = true) →
      (chainOffsets data).any f1 = true →
      (chainOffsets data).any (badLabelAt data) = true := by
    intro data f1 himp h1
    rcases List.any_eq_true.mp h1 with ⟨o, hmem, ho⟩
    exact List.any_eq_true.mpr ⟨o, hmem, himp o ho⟩
  refine ⟨?_, ?_, ?_⟩
  · intro data h
    by_cases h12 : data.length < 12
    · rw [sp_parse_dns_query, if_pos h12]
    · by_cases hbad : (chainOffsets data).any (badLabelAt data) = true
      · have hw : spWalkAux data data.length 12 = none :=
          spWalkAux_none_of_bad data data.length 12 hbad
        rw [sp_parse_dns_query, if_neg h12, hw]
      · have h63 : hasOver63 data = false := by
          cases hx : hasOver63 data
          · rfl
          · exact absurd (hmono data _ (fun j hj => by
              unfold badLabelAt; rw [hj, Bool.true_or]) hx) hbad
        have hovr : hasOverrun data = false := by
          cases hx : hasOverrun data
          · rfl
          · exact absurd (hmono data _ (fun j hj => by
              unfold badLabelAt; rw [hj, Bool.or_true]) hx) hbad
        have htr : data.length < chainEnd data + 5 := by
          rw [h63, hovr, Bool.or_false, Bool.or_false] at h
          unfold truncated at h
          rw [decide_eq_false h12, Bool.false_or] at h
          exact of_decide_eq_true h
        have hbadf : (chainOffsets data).any (badLabelAt data) = false := by
          cases hx : (chainOffsets data).any (badLabelAt data)
          · rfl
          · exact absurd hx hbad
        obtain ⟨labs, hw⟩ := spWalkAux_some_of_good data data.length 12 hbadf
        simp only [sp_parse_dns_query, if_neg h12, hw]
        by_cases hle : data.length ≤ chainEndAux data data.length 12
        · rw [if_pos hle]
        · rw [if_neg hle, if_pos (by unfold chainEnd at htr; omega)]
  · intro data
    have hE : (dtWalkAux data data.length 12).2 = chainEnd data :=
      dtWalkAux_end_eq_chainEnd data data.length 12
    constructor
    · intro h
      by_cases h12 : data.length < 12
      · exact Or.inl h12
      · rw [parse_dns_query, if_neg h12] at h
        by_cases hc : (dtWalkAux data data.length 12).2 + 1 + 2 ≤ data.length
        · rw [if_pos hc] at h
          exact absurd h (by simp)
        · rw [hE] at hc
          exact Or.inr (by omega)
    · intro h
      by_cases h12 : data.length < 12
      · rw [parse_dns_query, if_pos h12]
      · rcases h with h' | h3
        · exact absurd h' h12
        · rw [parse_dns_query, if_neg h12, if_neg (by rw [hE]; omega)]
  · intro data hov
    have h := chainEndAux_past_of_overrun data data.length 12 hov
    have hce : chainEnd data = chainEndAux data data.length 12 := rfl
    omega

/-- The datagram with one 70-byte label lying inside the buffer. -/
def c6data : List Nat :=
  [0, 7, 1, 0, 0, 1, 0, 0, 0, 0, 0, 0] ++ 70 :: List.replicate 70 97 ++ [0, 0, 16, 0, 1]

/-- A datagram whose question is truncated right after the 2 type bytes:
the 2 class bytes are missing. -/
def c6dataTrunc : List Nat :=
  [0, 7, 1, 0, 0, 1, 0, 0, 0, 0, 0, 0] ++ [1, 97, 0, 0, 16]

/-- C6 (counterexample) — `c6data` contains a label length over 63, and
`c6dataTrunc` is truncated (its class bytes are missing); for both,
dnstunnel.py's `_parse_dns_query` returns a parsed result rather than the
drop signal (while server.py's decoder rejects both). -/
theorem c6_counterexample :
    hasOver63 c6data = true ∧
    parse_dns_query c6data = some (7, List.replicate 70 'a', 16) ∧
    truncated c6dataTrunc = true ∧
    parse_dns_query c6dataTrunc = some (7, ['a'], 16) ∧
    sp_parse_dns_query c6dataTrunc = none :=
  ⟨by decide, by decide, by decide, by decide, by decide⟩

theorem c6_amended_witness :
    sp_parse_dns_query c6data = none ∧ sp_parse_dns_query [1, 2, 3] = none ∧
    parse_dns_query [1, 2, 3] = none ∧
    parse_dns_query ([0, 7, 1, 0, 0, 1, 0, 0, 0, 0, 0, 0] ++ [50, 97, 98]) = none ∧
    ([0, 7, 1, 0, 0, 1, 0, 0, 0, 0, 0, 0] ++ [50, 97, 98] : List Nat).length
      < chainEnd ([0, 7, 1, 0, 0, 1, 0, 0, 0, 0, 0, 0] ++ [50, 97, 98]) + 3 :=
  ⟨c6_amended.1 c6data (by decide), c6_amended.1 [1, 2, 3] (by decide),
   (c6_amended.2.1 [1, 2, 3]).mpr (Or.inl (by decide)),
   (c6_amended.2.1 ([0, 7, 1, 0, 0, 1, 0, 0, 0, 0, 0, 0] ++ [50, 97, 98])).mpr
     (Or.inr (by decide)),
   c6_amended.2.2 ([0, 7, 1, 0, 0, 1, 0, 0, 0, 0, 0, 0] ++ [50, 97, 98]) (by decide)⟩

/-! ## Upload reassembly: arrival-order independence -/

/-- The canonical chunk set `{(i, t i) | i < total}` in index order. -/
def uploadSet (t : Nat → List Char) (total : Nat) : List (Int × List Char) :=
  (List.range total).map (fun (i : Nat) => ((i : Int), t i))

/-- Deliver a sequence of upload chunks for one session through the upload
path, collecting the callback invocations; an uncaught exception aborts. -/
def deliverAll (now : Int) (tid qtype : Nat) (qname : List Char) (sid total : Int) :
    ServerState → List (Int × List Char) →
    Except Unit (ServerState × List (Int × List Nat))
  | st, [] => .ok (st, [])
  | st, (i, x) :: rest =>
    match handle_upload st now tid qname qtype sid i total x with
    | .error e => .error e
    | .ok r =>
      match deliverAll now tid qtype qname sid total r.state rest with
      | .error e => .error e
      | .ok (st', cbs) => .ok (st', r.callbacks ++ cbs)

theorem joinChunks_eq (sd : List (Int × List Char)) (t : Nat → List Char) :
    ∀ n, (∀ j, j < n → alookup sd ((j : Nat) : Int) = some (t j)) →
      joinChunks sd n = some ((List.range n).map t).flatten := by
  intro n
  induction n with
  | zero => intro _; simp [joinChunks]
  | succ m ih =>
    intro h
    rw [joinChunks, ih (fun j hj => h j (by omega)), h m (by omega)]
    simp [List.range_succ]

theorem uploadSet_keys (t : Nat → List Char) (total : Nat) :
    (uploadSet t total).map Prod.fst = (List.range total).map (fun (i : Nat) => (i : Int)) := by
  unfold uploadSet
  rw [List.map_map]
  rfl

theorem uploadSet_keys_nodup (t : Nat → List Char) (total : Nat) :
    ((uploadSet t total).map Prod.fst).Nodup := by
  rw [uploadSet_keys]
  exact List.Nodup.map (fun a b h => by exact_mod_cast h) (List.nodup_range total)

theorem uploadSet_length (t : Nat → List Char) (total : Nat) :
    (uploadSet t total).length = total := by
  unfold uploadSet
  rw [List.length_map, List.length_range]

theorem uploadSet_mem (t : Nat → List Char) (total : Nat) (j : Nat) (hj : j < total) :
    ((j : Int), t j) ∈ uploadSet t total :=
  List.mem_map.mpr ⟨j, List.mem_range.mpr hj, rfl⟩

/-- An upload step that leaves the session incomplete: the stored count
differs from the declared total, so reassembly yields nothing and no
callback fires. -/
theorem handle_upload_incomplete (st : ServerState) (now : Int) (tid : Nat)
    (qname : List Char) (qtype : Nat) (sid i : Int) (total : Nat) (x : List Char)
    (P : List (Int × List Char))
    (hP : (alookup st.sessions sid).getD [] = P)
    (hfresh : alookup P i = none)
    (hlen : P.length + 1 ≠ total) :
    handle_upload st now tid qname qtype sid i (total : Int) x
      = .ok ⟨{ st with
               sessions := ainsert st.sessions sid (P ++ [(i, x)]),
               session_metadata := ainsert st.session_metadata sid ((total : Int), now) },
             [⟨tid, qname, qtype, none⟩], []⟩ := by
  unfold handle_upload
  rw [hP, ainsert_of_lookup_none x hfresh]
  have hmeta : alookup (ainsert st.session_metadata sid ((total : Int), now)) sid
      = some ((total : Int), now) := alookup_ainsert_self _ _ _
  have hsess : alookup (ainsert st.sessions sid (P ++ [(i, x)])) sid
      = some (P ++ [(i, x)]) := alookup_ainsert_self _ _ _
  have hne : (((P ++ [(i, x)]).length : Nat) : Int) ≠ ((total : Nat) : Int) := by
    rw [List.length_append, List.length_singleton]
    push_cast
    omega
  simp only [assemble_session_data, hmeta, hsess, Option.getD_some, if_pos hne]

/-- The completing upload step: with all indices `0..total-1` now stored,
reassembly succeeds, the callback fires once and the upload state is
deleted. -/
theorem handle_upload_complete (st : ServerState) (now : Int) (tid : Nat)
    (qname : List Char) (qtype : Nat) (sid i : Int) (total : Nat)
    (t : Nat → List Char) (x : List Char) (P : List (Int × List Char))
    (payload : List Nat)
    (hP : (alookup st.sessions sid).getD [] = P)
    (hfresh : alookup P i = none)
    (hlen : P.length + 1 = total)
    (hperm : (P ++ [(i, x)]).Perm (uploadSet t total))
    (hdec : text_to_bytes ((List.range total).map t).flatten = some payload)
    (hpay : payload ≠ []) :
    handle_upload st now tid qname qtype sid i (total : Int) x
      = .ok ⟨⟨aerase (ainsert st.sessions sid (P ++ [(i, x)])) sid,
              aerase (ainsert st.session_metadata sid ((total : Int), now)) sid,
              st.response_queue⟩,
             [⟨tid, qname, qtype, none⟩], [(sid, payload)]⟩ := by
  unfold handle_upload
  rw [hP, ainsert_of_lookup_none x hfresh]
  have hmeta : alookup (ainsert st.session_metadata sid ((total : Int), now)) sid
      = some ((total : Int), now) := alookup_ainsert_self _ _ _
  have hsess : alookup (ainsert st.sessions sid (P ++ [(i, x)])) sid
      = some (P ++ [(i, x)]) := alookup_ainsert_self _ _ _
  have heq : (((P ++ [(i, x)]).length : Nat) : Int) = ((total : Nat) : Int) := by
    rw [List.length_append, List.length_singleton]
    push_cast
    omega
  have hnd : ((P ++ [(i, x)]).map Prod.fst).Nodup :=
    ((hperm.map Prod.fst).nodup_iff).mpr (uploadSet_keys_nodup t total)
  have hlook : ∀ j, j < total → alookup (P ++ [(i, x)]) ((j : Nat) : Int) = some (t j) :=
    fun j hj => alookup_of_nodup_mem hnd (hperm.mem_iff.mpr (uploadSet_mem t total j hj))
  have htn : ((total : Nat) : Int).toNat = total := Int.toNat_natCast total
  have hjoin : joinChunks (P ++ [(i, x)]) (((total : Nat) : Int)).toNat
      = some ((List.range total).map t).flatten := by
    rw [htn]
    exact joinChunks_eq (P ++ [(i, x)]) t total hlook
  have hcond : ¬((((P ++ [(i, x)]).length : Nat) : Int) ≠ ((total : Nat) : Int)) :=
    fun hne => hne heq
  simp only [assemble_session_data, hmeta, hsess, Option.getD_some,
    if_neg hcond, hjoin, hdec, if_pos hpay]

/-- The core of the amended order-independence claim: delivering any
permutation of the canonical chunk set drives the store to completion with
exactly one callback carrying the canonical payload, after which the
session's upload state is gone. -/
theorem deliverAll_perm (t : Nat → List Char) (total : Nat) (now : Int)
    (tid qtype : Nat) (qname : List Char) (sid : Int) (payload : List Nat)
    (hdec : text_to_bytes ((List.range total).map t).flatten = some payload)
    (hpay : payload ≠ []) :
    ∀ (R P : List (Int × List Char)) (st : ServerState),
      R ≠ [] →
      (P ++ R).Perm (uploadSet t total) →
      (alookup st.sessions sid).getD [] = P →
      ∃ st', deliverAll now tid qtype qname sid (total : Int) st R
          = .ok (st', [(sid, payload)]) ∧
        alookup st'.sessions sid = none ∧
        alookup st'.session_metadata sid = none := by
  intro R
  induction R with
  | nil => intro P st hne; exact absurd rfl hne
  | cons hd R' ih =>
    obtain ⟨i, x⟩ := hd
    intro P st _ hperm hP
    have hnd : ((P ++ (i, x) :: R').map Prod.fst).Nodup :=
      ((hperm.map Prod.fst).nodup_iff).mpr (uploadSet_keys_nodup t total)
    have hiP : i ∉ P.map Prod.fst := by
      rw [List.map_append, List.map_cons] at hnd
      have hdisj := (List.nodup_append.mp hnd).2.2
      intro hmem
      exact hdisj hmem (List.mem_cons_self _ _)
    have hfresh : alookup P i = none := alookup_none_of_not_mem_keys hiP
    have hlensum : P.length + (R'.length + 1) = total := by
      have hl := hperm.length_eq
      rw [uploadSet_length, List.length_append, List.length_cons] at hl
      omega
    cases R' with
    | nil =>
      have hstep := handle_upload_complete st now tid qname qtype sid i total t x P
        payload hP hfresh (by simpa using hlensum) hperm hdec hpay
      refine ⟨⟨aerase (ainsert st.sessions sid (P ++ [(i, x)])) sid,
               aerase (ainsert st.session_metadata sid ((total : Int), now)) sid,
               st.response_queue⟩, ?_,
        alookup_aerase_self _ _, alookup_aerase_self _ _⟩
      rw [deliverAll, hstep]
      rfl
    | cons hd2 R'' =>
      have hstep := handle_upload_incomplete st now tid qname qtype sid i total x P
        hP hfresh (by simp only [List.length_cons] at hlensum; omega)
      obtain ⟨st', hrun, h1, h2⟩ := ih (P ++ [(i, x)])
        ({ st with
           sessions := ainsert st.sessions sid (P ++ [(i, x)]),
           session_metadata := ainsert st.session_metadata sid ((total : Int), now) })
        (by simp)
        (by rw [List.append_assoc]; exact hperm)
        (by rw [alookup_ainsert_self]; rfl)
      refine ⟨st', ?_, h1, h2⟩
      rw [deliverAll, hstep]
      simp [hrun]

/-- C7 (amended) — for a chunk set whose indices are exactly `0..total-1`
and whose concatenated text decodes to a nonempty payload, delivering the
set in any arrival order yields the same reassembled payload, exactly one
callback invocation, and deletion of the session's upload state. -/
theorem c7_order_independent (t : Nat → List Char) (total : Nat) (now : Int)
    (tid qtype : Nat) (qname : List Char) (sid : Int) (payload : List Nat)
    (L : List (Int × List Char)) (st : ServerState)
    (hperm : L.Perm (uploadSet t total))
    (hdec : text_to_bytes ((List.range total).map t).flatten = some payload)
    (hpay : payload ≠ [])
    (hstart : alookup st.sessions sid = none) :
    ∃ st', deliverAll now tid qtype qname sid (total : Int) st L
        = .ok (st', [(sid, payload)]) ∧
      alookup st'.sessions sid = none ∧
      alookup st'.session_metadata sid = none := by
  have hne : L ≠ [] := by
    intro hL
    apply hpay
    have h0 : total = 0 := by
      have hl := hperm.length_eq
      rw [uploadSet_length, hL] at hl
      simpa using hl.symm
    rw [h0] at hdec
    simp only [List.range_zero, List.map_nil, List.flatten_nil] at hdec
    have hz : text_to_bytes ([] : List Char) = some [] := by decide
    rw [hz] at hdec
    exact (Option.some.inj hdec).symm
  exact deliverAll_perm t total now tid qtype qname sid payload hdec hpay L [] st hne
    (by simpa using hperm) (by rw [hstart]; rfl)

/-- C7 (counterexample) — delivering the complete index set `{0}` for total
1, whose chunk text `"0"` is not valid channel text, produces *zero*
callback invocations and leaves the upload state in place, refuting the
unqualified claim of exactly one invocation and deletion. -/
theorem c7_counterexample :
    deliverAll 0 9 1 "100-0-1-0.example.com".toList 100 1 emptyServerState
        [((0 : Int), ['0'])]
      = .ok (⟨[(100, [(0, ['0'])])], [(100, (1, 0))], []⟩, []) := by decide

theorem c7_witness :
    ∃ st', deliverAll 0 9 1 "w".toList 100 2 emptyServerState
        [((1 : Int), ['u', 'q']), ((0 : Int), ['n', 'b'])]
        = .ok (st', [(100, [104, 105])]) ∧
      alookup st'.sessions 100 = none ∧ alookup st'.session_metadata 100 = none :=
  c7_order_independent (fun i => if i = 0 then ['n', 'b'] else ['u', 'q']) 2 0 9 1
    "w".toList 100 [104, 105] [((1 : Int), ['u', 'q']), ((0 : Int), ['n', 'b'])]
    emptyServerState (by decide) (by decide) (by decide) (by rfl)

/-! ## Decimal rendering round-trips through `int()` -/

def digitsFold (l : List Char) (acc : Nat) : Nat :=
  l.foldl (fun a c => a * 10 + (c.toNat - 48)) acc

theorem pyDigitsVal_all_digits (l : List Char) :
    ∀ acc, (∀ c ∈ l, c.isDigit = true) →
      pyDigitsVal l acc = some (digitsFold l acc) := by
  induction l with
  | nil => intro acc _; simp [pyDigitsVal, digitsFold]
  | cons c rest ih =>
    intro acc h
    have hc : c.isDigit = true := h c (by simp)
    have hstep : pyDigitsVal (c :: rest) acc
        = pyDigitsVal rest (acc * 10 + (c.toNat - 48)) := by
      rw [pyDigitsVal.eq_def]
      simp [hc]
    rw [hstep, ih _ (fun d hd => h d (by simp [hd]))]
    simp [digitsFold]

theorem digitChar_facts (d : Nat) (hd : d < 10) :
    (Char.ofNat (48 + d)).isDigit = true ∧ (Char.ofNat (48 + d)).toNat = 48 + d ∧
    Char.ofNat (48 + d) ≠ '-' ∧ Char.ofNat (48 + d) ≠ '+' ∧
    isPySpace (Char.ofNat (48 + d)) = false := by
  interval_cases d <;>
    exact ⟨by decide, by decide, by decide, by decide, by decide⟩

theorem natDigitsAux_facts :
    ∀ fuel n, n < 10 ^ fuel → 0 < fuel →
      (natDigitsAux fuel n ≠ [] ∧
       (∀ c ∈ natDigitsAux fuel n, c.isDigit = true ∧ c ≠ '-' ∧ c ≠ '+' ∧
          isPySpace c = false) ∧
       ∀ acc, digitsFold (natDigitsAux fuel n) acc
          = acc * 10 ^ (natDigitsAux fuel n).length + n) := by
  intro fuel
  induction fuel with
  | zero => intro n _ h0; omega
  | succ m ih =>
    intro n hn _
    by_cases hsmall : n < 10
    · obtain ⟨hdig, htn, hminus, hplus, hsp⟩ := digitChar_facts n hsmall
      rw [natDigitsAux, if_pos hsmall]
      refine ⟨by simp, ?_, ?_⟩
      · intro c hc
        rcases List.mem_singleton.mp hc with rfl
        exact ⟨hdig, hminus, hplus, hsp⟩
      · intro acc
        simp [digitsFold, htn]
    · have hm1 : 0 < m := by
        by_contra hm0
        have : m = 0 := by omega
        subst this
        simp at hn
        omega
      have hdiv : n / 10 < 10 ^ m := by
        rw [pow_succ] at hn
        omega
      obtain ⟨hne', hchars', hval'⟩ := ih (n / 10) hdiv hm1
      obtain ⟨hdig, htn, hminus, hplus, hsp⟩ := digitChar_facts (n % 10) (by omega)
      rw [natDigitsAux, if_neg hsmall]
      refine ⟨by simp, ?_, ?_⟩
      · intro c hc
        rcases List.mem_append.mp hc with hc' | hc'
        · exact hchars' c hc'
        · rcases List.mem_singleton.mp hc' with rfl
          exact ⟨hdig, hminus, hplus, hsp⟩
      · intro acc
        rw [digitsFold, List.foldl_append]
        have hfold : List.foldl (fun a c => a * 10 + (c.toNat - 48))
            (digitsFold (natDigitsAux m (n / 10)) acc) [Char.ofNat (48 + n % 10)]
            = digitsFold (natDigitsAux m (n / 10)) acc * 10 + n % 10 := by
          simp [htn]
        rw [show List.foldl (fun a c => a * 10 + (c.toNat - 48)) acc
            (natDigitsAux m (n / 10)) = digitsFold (natDigitsAux m (n / 10)) acc
          from rfl, hfold, hval' acc, List.length_append, List.length_singleton]
        have hnm : n / 10 * 10 + n % 10 = n := by omega
        rw [pow_succ]
        ring_nf
        omega

theorem dropWhile_eq_self_of_none {p : Char → Bool} {l : List Char}
    (h : ∀ c ∈ l, p c = false) : l.dropWhile p = l := by
  cases l with
  | nil => rfl
  | cons c rest => rw [List.dropWhile_cons, if_neg (by simp [h c (by simp)])]

theorem natDigits_facts (n : Nat) :
    natDigits n ≠ [] ∧
    (∀ c ∈ natDigits n, c.isDigit = true ∧ c ≠ '-' ∧ c ≠ '+' ∧ isPySpace c = false) ∧
    pyInt (natDigits n) = some (n : Int) := by
  have hfuel : n < 10 ^ (n + 1) :=
    lt_of_lt_of_le (Nat.lt_pow_self (by norm_num) n)
      (Nat.pow_le_pow_right (by norm_num) (Nat.le_succ n))
  obtain ⟨hne, hchars, hval⟩ := natDigitsAux_facts (n + 1) n hfuel (by omega)
  refine ⟨hne, hchars, ?_⟩
  have hsp : ∀ c ∈ natDigitsAux (n + 1) n, isPySpace c = false :=
    fun c hc => (hchars c hc).2.2.2
  have hstrip1 : (natDigitsAux (n + 1) n).dropWhile isPySpace = natDigitsAux (n + 1) n :=
    dropWhile_eq_self_of_none hsp
  have hstrip2 : (natDigitsAux (n + 1) n).reverse.dropWhile isPySpace
      = (natDigitsAux (n + 1) n).reverse :=
    dropWhile_eq_self_of_none (fun c hc => hsp c (List.mem_reverse.mp hc))
  obtain ⟨c, rest, hcons⟩ : ∃ c rest, natDigitsAux (n + 1) n = c :: rest := by
    cases hl : natDigitsAux (n + 1) n with
    | nil => exact absurd hl hne
    | cons c rest => exact ⟨c, rest, rfl⟩
  have hcfacts := hchars c (by rw [hcons]; simp)
  have hall : ∀ d ∈ c :: rest, d.isDigit = true := by
    intro d hd
    exact (hchars d (by rw [hcons]; exact hd)).1
  have hv : digitsFold (c :: rest) 0 = n := by
    have hv0 := hval 0
    rw [hcons] at hv0
    simpa using hv0
  show pyInt (natDigitsAux (n + 1) n) = some (n : Int)
  unfold pyInt
  rw [hstrip1, hstrip2, List.reverse_reverse, hcons]
  simp [hcfacts.1, hcfacts.2.1, hcfacts.2.2.1,
    pyDigitsVal_all_digits (c :: rest) 0 hall, hv]

/-! ## Splitting around separators -/

theorem pySplitAll_no_sep {α : Type} [DecidableEq α] (sep : α) (l : List α)
    (h : sep ∉ l) : pySplitAll sep l = [l] := by
  induction l with
  | nil => rfl
  | cons c rest ih =>
    have hc : ¬c = sep := fun hEq => h (hEq ▸ List.mem_cons_self c rest)
    rw [pySplitAll, if_neg hc, ih (fun hm => h (List.mem_cons_of_mem c hm))]

theorem pySplitAll_append_sep {α : Type} [DecidableEq α] (sep : α) (a b : List α)
    (h : sep ∉ a) : pySplitAll sep (a ++ sep :: b) = a :: pySplitAll sep b := by
  induction a with
  | nil => rw [List.nil_append, pySplitAll, if_pos rfl]
  | cons c rest ih =>
    have hc : ¬c = sep := fun hEq => h (hEq ▸ List.mem_cons_self c rest)
    rw [List.cons_append, pySplitAll, if_neg hc,
      ih (fun hm => h (List.mem_cons_of_mem c hm))]

theorem isPrefixOf_append_self {α : Type} [BEq α] [LawfulBEq α] (a ds : List α) :
    a.isPrefixOf (a ++ ds) = true := by
  induction a with
  | nil => simp [List.isPrefixOf]
  | cons c rest ih => simp [List.isPrefixOf, ih]

/-! ## The recv poll name with and without an index -/

theorem recvName_suffix (domain sub : List Char) :
    domain.isSuffixOf (sub ++ '.' :: domain) = true := by
  rw [List.isSuffixOf_iff_suffix]
  exact (List.suffix_cons '.' domain).trans (List.suffix_append sub ('.' :: domain))

theorem recvName_take (domain sub : List Char) :
    (sub ++ '.' :: domain).take ((sub ++ '.' :: domain).length - (domain.length + 1))
      = sub := by
  have hlen : (sub ++ '.' :: domain).length - (domain.length + 1) = sub.length := by
    simp
  rw [hlen, List.take_left]

theorem decode_subdomain_recv_noidx (domain : List Char) (sid : Nat) :
    decode_subdomain domain (("recv-".toList ++ natDigits sid) ++ '.' :: domain)
      = some ((sid : Int), 0, -1, recvTag) := by
  obtain ⟨hne, hchars, hval⟩ := natDigits_facts sid
  have hnd : '-' ∉ natDigits sid := fun hm => (hchars _ hm).2.1 rfl
  unfold decode_subdomain
  rw [if_pos (recvName_suffix domain _), recvName_take domain _,
    if_pos (isPrefixOf_append_self _ _)]
  have hsplit : pySplitAll '-' ("recv-".toList ++ natDigits sid)
      = [['r', 'e', 'c', 'v'], natDigits sid] := by
    rw [show "recv-".toList ++ natDigits sid
        = (['r', 'e', 'c', 'v'] : List Char) ++ '-' :: natDigits sid from rfl,
      pySplitAll_append_sep '-' _ _ (by decide), pySplitAll_no_sep '-' _ hnd]
  rw [hsplit]
  simp [hval]

theorem decode_subdomain_recv_idx0 (domain : List Char) (sid : Nat) :
    decode_subdomain domain
        (("recv-".toList ++ natDigits sid ++ '-' :: ['0']) ++ '.' :: domain)
      = some ((sid : Int), 0, -1, recvTag) := by
  obtain ⟨hne, hchars, hval⟩ := natDigits_facts sid
  have hnd : '-' ∉ natDigits sid := fun hm => (hchars _ hm).2.1 rfl
  unfold decode_subdomain
  rw [if_pos (recvName_suffix domain _), recvName_take domain _]
  have hpre : ("recv-".toList).isPrefixOf ("recv-".toList ++ natDigits sid ++ '-' :: ['0'])
      = true := by
    rw [show "recv-".toList ++ natDigits sid ++ '-' :: ['0']
        = "recv-".toList ++ (natDigits sid ++ '-' :: ['0']) from by
      rw [List.append_assoc]]
    exact isPrefixOf_append_self _ _
  rw [if_pos hpre]
  have hsplit : pySplitAll '-' ("recv-".toList ++ natDigits sid ++ '-' :: ['0'])
      = [['r', 'e', 'c', 'v'], natDigits sid, ['0']] := by
    rw [show "recv-".toList ++ natDigits sid ++ '-' :: ['0']
        = (['r', 'e', 'c', 'v'] : List Char) ++ '-' :: (natDigits sid ++ '-' :: ['0'])
      from by simp,
      pySplitAll_append_sep '-' _ _ (by decide),
      pySplitAll_append_sep '-' _ _ hnd,
      pySplitAll_no_sep '-' _ (by decide)]
  rw [hsplit]
  simp [hval]
  rfl

/-- C10 — a poll `recv-{session}` with no index field decodes identically
to `recv-{session}-0` (the chunk index defaults to 0); against a queue of
two or more chunks the handler returns the chunk at index 0 (with its
CHUNK header) and keeps the queue entry; with exactly one chunk queued it
returns it and removes the entry. -/
theorem c10_recv_default_index (domain : List Char) (sid : Nat) (st : ServerState)
    (now : Int) (tid qtype : Nat) (chunks : List (List Char))
    (hq : alookup st.response_queue ((sid : Nat) : Int) = some chunks) :
    decode_subdomain domain (("recv-".toList ++ natDigits sid) ++ '.' :: domain)
      = decode_subdomain domain
          (("recv-".toList ++ natDigits sid ++ '-' :: ['0']) ++ '.' :: domain) ∧
    decode_subdomain domain (("recv-".toList ++ natDigits sid) ++ '.' :: domain)
      = some (((sid : Nat) : Int), 0, -1, recvTag) ∧
    (2 ≤ chunks.length →
      handle_query_parsed domain st now tid
          (("recv-".toList ++ natDigits sid) ++ '.' :: domain) qtype
        = .ok ⟨st, [⟨tid, ("recv-".toList ++ natDigits sid) ++ '.' :: domain, qtype,
                    some (chunks.getD 0 [])⟩], []⟩) ∧
    (chunks.length = 1 →
      handle_query_parsed domain st now tid
          (("recv-".toList ++ natDigits sid) ++ '.' :: domain) qtype
        = .ok ⟨{ st with response_queue := aerase st.response_queue ((sid : Nat) : Int) },
               [⟨tid, ("recv-".toList ++ natDigits sid) ++ '.' :: domain, qtype,
                 some (chunks.getD 0 [])⟩], []⟩) := by
  refine ⟨?_, decode_subdomain_recv_noidx domain sid, ?_, ?_⟩
  · rw [decode_subdomain_recv_noidx, decode_subdomain_recv_idx0]
  · intro h2
    obtain ⟨c0, c1, rest, rfl⟩ : ∃ c0 c1 rest, chunks = c0 :: c1 :: rest := by
      cases chunks with
      | nil => simp at h2
      | cons a t =>
        cases t with
        | nil => simp at h2
        | cons b u => exact ⟨a, b, u, rfl⟩
    simp only [handle_query_parsed, decode_subdomain_recv_noidx, hq]
    rw [if_pos trivial]
    rw [if_pos (by exact_mod_cast (by omega : (0 : Nat) < (c0 :: c1 :: rest).length))]
    rw [show pyIndex (c0 :: c1 :: rest) (0 : Int) = some c0 from rfl]
    rw [if_neg (by simp only [List.length_cons]; push_cast; omega)]
    rfl
  · intro h1
    obtain ⟨c0, rfl⟩ : ∃ c0, chunks = [c0] := by
      cases chunks with
      | nil => simp at h1
      | cons a t =>
        cases t with
        | nil => exact ⟨a, rfl⟩
        | cons b u => simp at h1
    simp only [handle_query_parsed, decode_subdomain_recv_noidx, hq]
    rw [if_pos trivial]
    rw [if_pos (by simp)]
    rw [show pyIndex [c0] (0 : Int) = some c0 from rfl]
    rw [if_pos (by simp)]
    rfl

theorem c10_witness :
    (decode_subdomain "example.com".toList "recv-7.example.com".toList
        = decode_subdomain "example.com".toList "recv-7-0.example.com".toList) ∧
    handle_query_parsed "example.com".toList
        ⟨[], [], [(7, [['a'], ['b']])]⟩ 0 9 "recv-7.example.com".toList 16
      = .ok ⟨⟨[], [], [(7, [['a'], ['b']])]⟩,
             [⟨9, "recv-7.example.com".toList, 16, some ['a']⟩], []⟩ := by
  have h := c10_recv_default_index "example.com".toList 7
    ⟨[], [], [(7, [['a'], ['b']])]⟩ 0 9 16 [['a'], ['b']] (by decide)
  have hname : ("recv-".toList ++ natDigits 7) ++ '.' :: "example.com".toList
      = "recv-7.example.com".toList := by decide
  have hname0 : ("recv-".toList ++ natDigits 7 ++ '-' :: ['0'])
      ++ '.' :: "example.com".toList = "recv-7-0.example.com".toList := by decide
  constructor
  · rw [← hname, ← hname0]
    exact h.1
  · rw [← hname]
    exact h.2.2.1 (by decide)

end DnsTunnel
